import Mathlib

/-!
Verification of the battery-pack charging and balancing simulation engine.

The definitions below are a shallow embedding of the simulation code:
the four-case engine of `src/index.html` (constants, `getOCV`,
`getMeasuredVoltage`, `getChargingCurrentCase4`, `updateSimulation`,
`resetSimulation`) and the standalone case-1 simulations of
`src/passive.js` and `src/unnamed/part_000`.  JavaScript numbers are
modelled as exact rationals; the pack always holds exactly three cells,
as created by `initCells`, so it is embedded as a three-field structure
and the `forEach` scans are unrolled in source order.
-/

namespace BatterySim

/-- Simulation phase: the string-valued `phase` variable,
one of "charging", "balancing", "done". -/
inductive Phase where
  | charging
  | balancing
  | done
deriving DecidableEq, Repr

/-- One battery cell: capacity [Ah], state of charge (0-1), internal resistance. -/
structure Cell where
  capacity : ℚ
  SOC : ℚ
  R : ℚ
deriving DecidableEq, Repr

/-- The three-cell series pack (the `cells` array always has length 3). -/
structure Pack where
  cell0 : Cell
  cell1 : Cell
  cell2 : Cell
deriving DecidableEq, Repr

/-- Positional access to the pack's cells. -/
def Pack.cell (p : Pack) : Fin 3 → Cell
  | 0 => p.cell0
  | 1 => p.cell1
  | 2 => p.cell2

/-- Minimum (empty) cell voltage [V]. -/
def V_MIN : ℚ := 3.0
/-- Ideal full-charge cell voltage [V] (open circuit). -/
def V_MAX : ℚ := 4.2
/-- Over-voltage protection threshold [V]. -/
def OVP : ℚ := 4.2
/-- Base charging current (arbitrary units). -/
def I_BASE : ℚ := 0.005
/-- Passive balancing decrement (in SOC units per step). -/
def dPassive : ℚ := 0.001
/-- Active balancing transfer (in SOC units per step). -/
def dActive : ℚ := 0.001
/-- Tolerance (in volts) for equalization. -/
def tolVoltage : ℚ := 0.005

/-- `initCells`: the fixed three-cell pack created at reset. -/
def initCells : Pack :=
  { cell0 := { capacity := 3.0, SOC := 0.70, R := 0.05 }
  , cell1 := { capacity := 2.5, SOC := 0.50, R := 0.08 }
  , cell2 := { capacity := 3.5, SOC := 0.90, R := 0.03 } }

/-- `getOCV`: linear relation between SOC and open-circuit voltage. -/
def getOCV (cell : Cell) : ℚ :=
  V_MIN + (V_MAX - V_MIN) * cell.SOC

/-- `getMeasuredVoltage`: OCV plus the IR drop when the global
`chargingActive` flag is set (the flag is passed explicitly here). -/
def getMeasuredVoltage (chargingActive : Bool) (cell : Cell) (current : ℚ) : ℚ :=
  getOCV cell + (if chargingActive then current * cell.R else 0)

/-- One iteration of the `forEach` scan in `getChargingCurrentCase4`:
update the running maximum on strict comparison. -/
def case4ScanStep (chargingActive : Bool) (maxV : ℚ) (cell : Cell) : ℚ :=
  let v := getMeasuredVoltage chargingActive cell I_BASE
  if v > maxV then v else maxV

/-- `getChargingCurrentCase4`: scan all cells for the highest measured
voltage at `I_BASE` (running max initialised to 0), and reduce the
current tenfold once it reaches the OVP threshold. -/
def getChargingCurrentCase4 (chargingActive : Bool) (p : Pack) : ℚ :=
  let maxV := case4ScanStep chargingActive
      (case4ScanStep chargingActive
        (case4ScanStep chargingActive 0 p.cell0) p.cell1) p.cell2
  if maxV ≥ OVP then I_BASE * 0.1 else I_BASE

/-- The engine's mutable state: selected case, phase, charging flag, cells. -/
structure SimState where
  simulationCase : ℤ
  phase : Phase
  chargingActive : Bool
  cells : Pack
deriving DecidableEq, Repr

/-- `resetSimulation`: set the case from the parsed selector value,
phase = charging, chargingActive = true, and recreate the cells.
The source performs no validation of the identifier and has no error path. -/
def resetSimulation (caseId : ℤ) : SimState :=
  { simulationCase := caseId
  , phase := Phase.charging
  , chargingActive := true
  , cells := initCells }

/-- SOC growth of one cell during charging: `cell.SOC += I_eff / capacity`,
then clamp to at most 1. -/
def chargeCell (Ieff : ℚ) (cell : Cell) : Cell :=
  let s := cell.SOC + Ieff / cell.capacity
  { cell with SOC := if s > 1 then 1 else s }

/-- The charging `forEach`: apply `chargeCell` to every cell. -/
def chargePack (Ieff : ℚ) (p : Pack) : Pack :=
  { cell0 := chargeCell Ieff p.cell0
  , cell1 := chargeCell Ieff p.cell1
  , cell2 := chargeCell Ieff p.cell2 }

/-- Accumulator of the donor/receiver scan
(`maxIndex`, `minIndex`, `maxVoltage`, `minVoltage`). -/
structure ScanAcc where
  maxIndex : Fin 3
  minIndex : Fin 3
  maxVoltage : ℚ
  minVoltage : ℚ
deriving DecidableEq, Repr

/-- One iteration of the donor/receiver `forEach` scan: the running
maximum and minimum are each updated only on strict comparison (the
source's two sequential `if`s, flattened over their four outcomes;
the second `if` reads the `minVoltage` the first one never touches). -/
def scanStep (acc : ScanAcc) (i : Fin 3) (v : ℚ) : ScanAcc :=
  if v > acc.maxVoltage then
    if v < acc.minVoltage then ⟨i, i, v, v⟩
    else ⟨i, acc.minIndex, v, acc.minVoltage⟩
  else
    if v < acc.minVoltage then ⟨acc.maxIndex, i, acc.maxVoltage, v⟩
    else acc

/-- The donor/receiver scan over the three cells' voltages: indices start
at 0 and the running extrema start at cell 0's voltage, then every cell
(including cell 0) is visited in order. -/
def scanMaxMin (v0 v1 v2 : ℚ) : ScanAcc :=
  scanStep (scanStep (scanStep ⟨0, 0, v0, v0⟩ 0 v0) 1 v1) 2 v2

/-- Overwrite the SOC of the cell at position `i`. -/
def Pack.setSOC (p : Pack) (i : Fin 3) (x : ℚ) : Pack :=
  match i with
  | 0 => { p with cell0 := { p.cell0 with SOC := x } }
  | 1 => { p with cell1 := { p.cell1 with SOC := x } }
  | 2 => { p with cell2 := { p.cell2 with SOC := x } }

/-- Read the SOC of the cell at position `i`. -/
def Pack.getSOC (p : Pack) (i : Fin 3) : ℚ :=
  (p.cell i).SOC

/-- The active charge transfer shared by case 3 (during charging) and
case 2 (during balancing): when the voltage spread exceeds `tolVoltage`,
move `dActive` of SOC from the donor (`maxIndex`) to the receiver
(`minIndex`), then clamp the donor at 0 from below and the receiver at 1
from above — exactly the source's asymmetric clamping, in source order. -/
def activeTransfer (p : Pack) (r : ScanAcc) : Pack :=
  if r.maxVoltage - r.minVoltage > tolVoltage then
    let p1 := p.setSOC r.maxIndex (p.getSOC r.maxIndex - dActive)
    let p2 := p1.setSOC r.minIndex (p1.getSOC r.minIndex + dActive)
    let p3 := if p2.getSOC r.maxIndex < 0 then p2.setSOC r.maxIndex 0 else p2
    if p3.getSOC r.minIndex > 1 then p3.setSOC r.minIndex 1 else p3
  else p

/-- The effective charging current: case 4 uses the regulated current,
every other case uses `I_BASE`. -/
def effectiveCurrent (s : SimState) : ℚ :=
  if s.simulationCase = 4 then getChargingCurrentCase4 s.chargingActive s.cells else I_BASE

/-- `cells.some(cell => getMeasuredVoltage(cell, I_effective) >= OVP)`. -/
def overvoltageCond (s : SimState) (Ieff : ℚ) : Prop :=
  getMeasuredVoltage s.chargingActive s.cells.cell0 Ieff ≥ OVP ∨
  getMeasuredVoltage s.chargingActive s.cells.cell1 Ieff ≥ OVP ∨
  getMeasuredVoltage s.chargingActive s.cells.cell2 Ieff ≥ OVP

instance (s : SimState) (Ieff : ℚ) : Decidable (overvoltageCond s Ieff) := by
  unfold overvoltageCond
  infer_instance

/-- The charging-phase block of `updateSimulation`, in source order:
determine the effective current, grow every cell's SOC when
`chargingActive`, run the cases-1-and-2 overvoltage trip, then the
case-3 active equalization. -/
def chargingStep (s : SimState) : SimState :=
  let Ieff := effectiveCurrent s
  let s1 := if s.chargingActive then { s with cells := chargePack Ieff s.cells } else s
  let s2 :=
    if s1.simulationCase = 1 ∨ s1.simulationCase = 2 then
      if overvoltageCond s1 Ieff then
        { s1 with chargingActive := false, phase := Phase.balancing }
      else s1
    else s1
  if s2.simulationCase = 3 then
    let r := scanMaxMin
      (getMeasuredVoltage s2.chargingActive s2.cells.cell0 Ieff)
      (getMeasuredVoltage s2.chargingActive s2.cells.cell1 Ieff)
      (getMeasuredVoltage s2.chargingActive s2.cells.cell2 Ieff)
    { s2 with cells := activeTransfer s2.cells r }
  else s2

/-- One passive-balancing discharge: a cell whose measured voltage (at
zero current) exceeds the pack minimum by more than `tolVoltage` loses
`dPassive` of SOC, clamped at 0. -/
def passiveBleedCell (chargingActive : Bool) (minV : ℚ) (cell : Cell) : Cell :=
  let v := getMeasuredVoltage chargingActive cell 0
  if v > minV + tolVoltage then
    let s := cell.SOC - dPassive
    { cell with SOC := if s < 0 then 0 else s }
  else cell

/-- `Math.max` over the three voltages. -/
def max3 (a b c : ℚ) : ℚ := max (max a b) c

/-- `Math.min` over the three voltages. -/
def min3 (a b c : ℚ) : ℚ := min (min a b) c

/-- The balancing-phase block of `updateSimulation`: case 1 bleeds every
cell above the minimum voltage, case 2 runs one active transfer, then
(for any case) the phase becomes done once the voltage spread is below
`tolVoltage`. -/
def balancingStep (s : SimState) : SimState :=
  let s1 :=
    if s.simulationCase = 1 then
      let minV := min3
        (getMeasuredVoltage s.chargingActive s.cells.cell0 0)
        (getMeasuredVoltage s.chargingActive s.cells.cell1 0)
        (getMeasuredVoltage s.chargingActive s.cells.cell2 0)
      { s with cells :=
        { cell0 := passiveBleedCell s.chargingActive minV s.cells.cell0
        , cell1 := passiveBleedCell s.chargingActive minV s.cells.cell1
        , cell2 := passiveBleedCell s.chargingActive minV s.cells.cell2 } }
    else if s.simulationCase = 2 then
      let r := scanMaxMin
        (getMeasuredVoltage s.chargingActive s.cells.cell0 0)
        (getMeasuredVoltage s.chargingActive s.cells.cell1 0)
        (getMeasuredVoltage s.chargingActive s.cells.cell2 0)
      { s with cells := activeTransfer s.cells r }
    else s
  let v0 := getMeasuredVoltage s1.chargingActive s1.cells.cell0 0
  let v1 := getMeasuredVoltage s1.chargingActive s1.cells.cell1 0
  let v2 := getMeasuredVoltage s1.chargingActive s1.cells.cell2 0
  if max3 v0 v1 v2 - min3 v0 v1 v2 < tolVoltage then { s1 with phase := Phase.done } else s1

/-- The trailing end-condition block of `updateSimulation` for cases 3
and 4: while still charging, finish once every cell's SOC is at least
0.99 and the voltage spread is below `tolVoltage`. -/
def endCheck (s : SimState) : SimState :=
  if (s.simulationCase = 3 ∨ s.simulationCase = 4) ∧ s.phase = Phase.charging then
    let currentForCalc :=
      if s.simulationCase = 4 ∧ s.chargingActive then
        getChargingCurrentCase4 s.chargingActive s.cells
      else I_BASE
    let v0 := getMeasuredVoltage s.chargingActive s.cells.cell0 currentForCalc
    let v1 := getMeasuredVoltage s.chargingActive s.cells.cell1 currentForCalc
    let v2 := getMeasuredVoltage s.chargingActive s.cells.cell2 currentForCalc
    if (s.cells.cell0.SOC ≥ 0.99 ∧ s.cells.cell1.SOC ≥ 0.99 ∧ s.cells.cell2.SOC ≥ 0.99) ∧
        max3 v0 v1 v2 - min3 v0 v1 v2 < tolVoltage then
      { s with phase := Phase.done }
    else s
  else s

/-- `updateSimulation`: one simulation tick — the charging block, else
the balancing block, followed by the cases-3-and-4 end condition. -/
def updateSimulation (s : SimState) : SimState :=
  let s1 :=
    if s.phase = Phase.charging then chargingStep s
    else if s.phase = Phase.balancing then balancingStep s
    else s
  endCheck s1

/-- States reachable from a valid reset by any number of steps. -/
def Reachable (s : SimState) : Prop :=
  ∃ (c : ℤ) (n : ℕ),
    (c = 1 ∨ c = 2 ∨ c = 3 ∨ c = 4) ∧ s = updateSimulation^[n] (resetSimulation c)

/-- State of the standalone case-1 simulations (`src/passive.js` and
`src/unnamed/part_000`): no case selector, only phase, flag and cells. -/
structure PassiveState where
  phase : Phase
  chargingActive : Bool
  cells : Pack
deriving DecidableEq, Repr

/-- Forget the engine's case selector, keeping the shared state. -/
def projEngine (s : SimState) : PassiveState :=
  { phase := s.phase, chargingActive := s.chargingActive, cells := s.cells }

namespace PassiveJs

/-- `getOCV` of `src/passive.js`. -/
def getOCV (cell : Cell) : ℚ :=
  V_MIN + (V_MAX - V_MIN) * cell.SOC

/-- `getMeasuredVoltage` of `src/passive.js`. -/
def getMeasuredVoltage (chargingActive : Bool) (cell : Cell) (current : ℚ) : ℚ :=
  getOCV cell + (if chargingActive then current * cell.R else 0)

/-- The balancing bleed of `src/passive.js`:
`cells[i].SOC -= dPassive; if (cells[i].SOC < 0) cells[i].SOC = 0;`. -/
def bleedCell (cell : Cell) : Cell :=
  let s := cell.SOC - dPassive
  { cell with SOC := if s < 0 then 0 else s }

/-- `updateSimulation` of `src/passive.js`: unconditional SOC growth at
`I_BASE` during charging with the overvoltage trip, then passive
balancing against the precomputed measured voltages. -/
def updateSimulation (s : PassiveState) : PassiveState :=
  if s.phase = Phase.charging then
    let s1 := { s with cells := chargePack I_BASE s.cells }
    if getMeasuredVoltage s1.chargingActive s1.cells.cell0 I_BASE ≥ OVP ∨
        getMeasuredVoltage s1.chargingActive s1.cells.cell1 I_BASE ≥ OVP ∨
        getMeasuredVoltage s1.chargingActive s1.cells.cell2 I_BASE ≥ OVP then
      { s1 with chargingActive := false, phase := Phase.balancing }
    else s1
  else if s.phase = Phase.balancing then
    let v0 := getMeasuredVoltage s.chargingActive s.cells.cell0 0
    let v1 := getMeasuredVoltage s.chargingActive s.cells.cell1 0
    let v2 := getMeasuredVoltage s.chargingActive s.cells.cell2 0
    let minV := min3 v0 v1 v2
    let s1 := { s with cells :=
      { cell0 := if v0 > minV + tolVoltage then bleedCell s.cells.cell0 else s.cells.cell0
      , cell1 := if v1 > minV + tolVoltage then bleedCell s.cells.cell1 else s.cells.cell1
      , cell2 := if v2 > minV + tolVoltage then bleedCell s.cells.cell2 else s.cells.cell2 } }
    let w0 := getMeasuredVoltage s1.chargingActive s1.cells.cell0 0
    let w1 := getMeasuredVoltage s1.chargingActive s1.cells.cell1 0
    let w2 := getMeasuredVoltage s1.chargingActive s1.cells.cell2 0
    if max3 w0 w1 w2 - min3 w0 w1 w2 < tolVoltage then { s1 with phase := Phase.done } else s1
  else s

end PassiveJs

namespace Part000

/-- `getOCV` of `src/unnamed/part_000`. -/
def getOCV (cell : Cell) : ℚ :=
  V_MIN + (V_MAX - V_MIN) * cell.SOC

/-- `getMeasuredVoltage` of `src/unnamed/part_000`. -/
def getMeasuredVoltage (chargingActive : Bool) (cell : Cell) (current : ℚ) : ℚ :=
  getOCV cell + (if chargingActive then current * cell.R else 0)

/-- The balancing bleed of `src/unnamed/part_000`. -/
def bleedCell (cell : Cell) : Cell :=
  let s := cell.SOC - dPassive
  { cell with SOC := if s < 0 then 0 else s }

/-- `updateSimulation` of `src/unnamed/part_000` (textually the same
update logic as `src/passive.js`). -/
def updateSimulation (s : PassiveState) : PassiveState :=
  if s.phase = Phase.charging then
    let s1 := { s with cells := chargePack I_BASE s.cells }
    if getMeasuredVoltage s1.chargingActive s1.cells.cell0 I_BASE ≥ OVP ∨
        getMeasuredVoltage s1.chargingActive s1.cells.cell1 I_BASE ≥ OVP ∨
        getMeasuredVoltage s1.chargingActive s1.cells.cell2 I_BASE ≥ OVP then
      { s1 with chargingActive := false, phase := Phase.balancing }
    else s1
  else if s.phase = Phase.balancing then
    let v0 := getMeasuredVoltage s.chargingActive s.cells.cell0 0
    let v1 := getMeasuredVoltage s.chargingActive s.cells.cell1 0
    let v2 := getMeasuredVoltage s.chargingActive s.cells.cell2 0
    let minV := min3 v0 v1 v2
    let s1 := { s with cells :=
      { cell0 := if v0 > minV + tolVoltage then bleedCell s.cells.cell0 else s.cells.cell0
      , cell1 := if v1 > minV + tolVoltage then bleedCell s.cells.cell1 else s.cells.cell1
      , cell2 := if v2 > minV + tolVoltage then bleedCell s.cells.cell2 else s.cells.cell2 } }
    let w0 := getMeasuredVoltage s1.chargingActive s1.cells.cell0 0
    let w1 := getMeasuredVoltage s1.chargingActive s1.cells.cell1 0
    let w2 := getMeasuredVoltage s1.chargingActive s1.cells.cell2 0
    if max3 w0 w1 w2 - min3 w0 w1 w2 < tolVoltage then { s1 with phase := Phase.done } else s1
  else s

end Part000

/-- Per-cell invariant: positive capacity and SOC within bounds. -/
def CellInv (cell : Cell) : Prop :=
  0 < cell.capacity ∧ 0 ≤ cell.SOC ∧ cell.SOC ≤ 1

instance (cell : Cell) : Decidable (CellInv cell) := by
  unfold CellInv
  infer_instance

/-- Pack-wide invariant: every cell satisfies `CellInv`. -/
def PackInv (p : Pack) : Prop :=
  CellInv p.cell0 ∧ CellInv p.cell1 ∧ CellInv p.cell2

instance (p : Pack) : Decidable (PackInv p) := by
  unfold PackInv
  infer_instance

/-- The inductive invariant of the engine: SOC bounds with positive
capacities, charging phase implies the charging flag, and cases 3 and 4
are never in the balancing phase. -/
def Inv (s : SimState) : Prop :=
  PackInv s.cells ∧
  (s.phase = Phase.charging → s.chargingActive = true) ∧
  ((s.simulationCase = 3 ∨ s.simulationCase = 4) → s.phase ≠ Phase.balancing)

instance (s : SimState) : Decidable (Inv s) := by
  unfold Inv
  infer_instance

/-- The cases-1-and-2 overvoltage trip, as evaluated inside the charging
step: the check runs on the cells after the SOC growth of the same tick. -/
def overvoltageTripFires (s : SimState) : Prop :=
  let Ieff := effectiveCurrent s
  let s1 := if s.chargingActive then { s with cells := chargePack Ieff s.cells } else s
  (s.simulationCase = 1 ∨ s.simulationCase = 2) ∧ overvoltageCond s1 Ieff

instance (s : SimState) : Decidable (overvoltageTripFires s) := by
  unfold overvoltageTripFires
  infer_instance

/-- The case-3 transfer guard, as evaluated inside the charging step:
the voltage spread of the cells after the SOC growth of the same tick
exceeds `tolVoltage`. -/
def case3TransferFires (s : SimState) : Prop :=
  let Ieff := effectiveCurrent s
  let s1 := if s.chargingActive then { s with cells := chargePack Ieff s.cells } else s
  let r := scanMaxMin
    (getMeasuredVoltage s1.chargingActive s1.cells.cell0 Ieff)
    (getMeasuredVoltage s1.chargingActive s1.cells.cell1 Ieff)
    (getMeasuredVoltage s1.chargingActive s1.cells.cell2 Ieff)
  r.maxVoltage - r.minVoltage > tolVoltage

instance (s : SimState) : Decidable (case3TransferFires s) := by
  unfold case3TransferFires
  infer_instance

/-- Positional selection among three voltages, mirroring the scan order. -/
def sel3 (v0 v1 v2 : ℚ) : Fin 3 → ℚ
  | 0 => v0
  | 1 => v1
  | 2 => v2

/-- Per-cell measured voltage of a pack, by position. -/
def voltAt (chargingActive : Bool) (p : Pack) (current : ℚ) (i : Fin 3) : ℚ :=
  getMeasuredVoltage chargingActive (p.cell i) current

/-- A concrete pack in which cells 0 and 1 tie for the maximum measured
voltage (equal SOC), used to witness the tie-break behaviour. -/
def tiePack : Pack :=
  { cell0 := { capacity := 3.0, SOC := 0.9, R := 0.05 }
  , cell1 := { capacity := 2.5, SOC := 0.9, R := 0.08 }
  , cell2 := { capacity := 3.5, SOC := 0.5, R := 0.03 } }

/-- A concrete terminal state, used to witness the done-phase no-op. -/
def doneState : SimState :=
  { simulationCase := 1, phase := Phase.done, chargingActive := false, cells := initCells }

/-!  ## Theorems  -/

/-- C1 (amended): the reset operation never fails for any case
identifier — including 0 and 5 — and always (re)creates the fixed
three-cell pack with phase = charging and chargingActive = true; the
source performs no validation of the identifier. -/
theorem reset_total_and_initializes (caseId : ℤ) :
    (resetSimulation caseId).phase = Phase.charging ∧
    (resetSimulation caseId).chargingActive = true ∧
    (resetSimulation caseId).cells = initCells ∧
    (resetSimulation caseId).simulationCase = caseId :=
  ⟨rfl, rfl, rfl, rfl⟩

/-- C1 counterexample: `reset(5)` does not raise any error — it returns
a normally initialized state, identical to `reset(1)` except for the
stored case identifier, and likewise for `reset(0)`. -/
theorem reset_five_and_zero_succeed :
    resetSimulation 5 = { resetSimulation 1 with simulationCase := 5 } ∧
    resetSimulation 0 = { resetSimulation 1 with simulationCase := 0 } ∧
    (resetSimulation 5).phase = Phase.charging ∧
    (resetSimulation 5).chargingActive = true ∧
    (resetSimulation 5).cells = initCells :=
  ⟨rfl, rfl, rfl, rfl, rfl⟩

/-- C4: whenever `chargingActive` is false, the measured voltage of any
cell at any current — including a nonzero one — is exactly the
open-circuit voltage `V_MIN + (V_MAX - V_MIN) * SOC`; the IR-drop term
is suppressed entirely. -/
theorem measuredVoltage_inactive_is_ocv (cell : Cell) (x : ℚ) :
    getMeasuredVoltage false cell x = getOCV cell ∧
    getOCV cell = V_MIN + (V_MAX - V_MIN) * cell.SOC := by
  refine ⟨?_, rfl⟩
  simp [getMeasuredVoltage]

/-- C6: a step taken in the done phase leaves the entire engine state
(phase, chargingActive, every cell, and the case identifier) unchanged,
so repeated step calls on a finished simulation are a no-op. -/
theorem step_done_noop (s : SimState) (h : s.phase = Phase.done) :
    updateSimulation s = s := by
  simp [updateSimulation, endCheck, h]

/-- C6 witness: the no-op theorem applied to a concrete done state. -/
theorem step_done_noop_witness : updateSimulation doneState = doneState :=
  step_done_noop doneState rfl

/-- C5: for every pack state (and either value of the charging flag),
`getChargingCurrentCase4` returns `I_BASE * 0.1 = 0.0005` exactly when
the maximum over all cells of `measuredVoltage(cell, I_BASE)` is at
least `OVP`, and `I_BASE = 0.005` otherwise. -/
theorem case4_current_spec (ca : Bool) (p : Pack) :
    getChargingCurrentCase4 ca p =
      (if OVP ≤ max3 (getMeasuredVoltage ca p.cell0 I_BASE)
          (getMeasuredVoltage ca p.cell1 I_BASE)
          (getMeasuredVoltage ca p.cell2 I_BASE)
        then I_BASE * 0.1 else I_BASE) ∧
    I_BASE * 0.1 = 0.0005 ∧ I_BASE = 0.005 := by
  refine ⟨?_, by norm_num [I_BASE], rfl⟩
  have hstep : ∀ (m : ℚ) (c : Cell),
      case4ScanStep ca m c = max (getMeasuredVoltage ca c I_BASE) m := by
    intro m c
    unfold case4ScanStep
    dsimp only
    split_ifs with h
    · exact (max_eq_left h.le).symm
    · exact (max_eq_right (not_lt.mp h)).symm
  unfold getChargingCurrentCase4
  rw [hstep, hstep, hstep]
  have hO : ¬ OVP ≤ (0:ℚ) := by norm_num [OVP]
  have hiff :
      OVP ≤ max (getMeasuredVoltage ca p.cell2 I_BASE)
        (max (getMeasuredVoltage ca p.cell1 I_BASE)
          (max (getMeasuredVoltage ca p.cell0 I_BASE) 0)) ↔
      OVP ≤ max3 (getMeasuredVoltage ca p.cell0 I_BASE)
        (getMeasuredVoltage ca p.cell1 I_BASE)
        (getMeasuredVoltage ca p.cell2 I_BASE) := by
    simp only [max3, le_max_iff]
    tauto
  simp only [ge_iff_le]
  rw [if_congr hiff rfl rfl]

/-- The donor/receiver scan returns, for both the maximum and the
minimum, the value attained and the first index attaining it: every
earlier index holds a strictly smaller (resp. larger) voltage, because
the running extrema are updated only on strict comparison. -/
theorem scanMaxMin_first_occurrence (v0 v1 v2 : ℚ) :
    (∀ k, sel3 v0 v1 v2 k ≤ sel3 v0 v1 v2 (scanMaxMin v0 v1 v2).maxIndex) ∧
    (∀ k, k < (scanMaxMin v0 v1 v2).maxIndex →
      sel3 v0 v1 v2 k < sel3 v0 v1 v2 (scanMaxMin v0 v1 v2).maxIndex) ∧
    (∀ k, sel3 v0 v1 v2 (scanMaxMin v0 v1 v2).minIndex ≤ sel3 v0 v1 v2 k) ∧
    (∀ k, k < (scanMaxMin v0 v1 v2).minIndex →
      sel3 v0 v1 v2 (scanMaxMin v0 v1 v2).minIndex < sel3 v0 v1 v2 k) := by
  have h0 : scanStep ⟨0, 0, v0, v0⟩ 0 v0 = ⟨0, 0, v0, v0⟩ := by
    simp [scanStep]
  unfold scanMaxMin
  rw [h0]
  unfold scanStep
  split_ifs <;>
    refine ⟨fun k => ?_, fun k hk => ?_, fun k => ?_, fun k hk => ?_⟩ <;>
    fin_cases k <;>
    simp_all [sel3] <;>
    linarith

/-- C7: in the donor/receiver selection used by case 3 during charging
and case 2 during balancing, when two cells `i < j` have exactly equal
measured voltage, the chosen maximum (resp. minimum) index is the first
occurrence in scan order: it is at most `i`, attains the extremum, and
every earlier index is strictly smaller (resp. larger). -/
theorem tie_break_first_index (ca : Bool) (p : Pack) (I : ℚ) (i j : Fin 3)
    (_hij : i < j) (_heq : voltAt ca p I i = voltAt ca p I j) :
    ((∀ k, voltAt ca p I k ≤ voltAt ca p I i) →
      (scanMaxMin (voltAt ca p I 0) (voltAt ca p I 1) (voltAt ca p I 2)).maxIndex ≤ i ∧
      voltAt ca p I (scanMaxMin (voltAt ca p I 0) (voltAt ca p I 1) (voltAt ca p I 2)).maxIndex
        = voltAt ca p I i ∧
      (∀ k, k < (scanMaxMin (voltAt ca p I 0) (voltAt ca p I 1) (voltAt ca p I 2)).maxIndex →
        voltAt ca p I k < voltAt ca p I i)) ∧
    ((∀ k, voltAt ca p I i ≤ voltAt ca p I k) →
      (scanMaxMin (voltAt ca p I 0) (voltAt ca p I 1) (voltAt ca p I 2)).minIndex ≤ i ∧
      voltAt ca p I (scanMaxMin (voltAt ca p I 0) (voltAt ca p I 1) (voltAt ca p I 2)).minIndex
        = voltAt ca p I i ∧
      (∀ k, k < (scanMaxMin (voltAt ca p I 0) (voltAt ca p I 1) (voltAt ca p I 2)).minIndex →
        voltAt ca p I i < voltAt ca p I k)) := by
  obtain ⟨hmaxAll, hmaxFirst, hminAll, hminFirst⟩ :=
    scanMaxMin_first_occurrence (voltAt ca p I 0) (voltAt ca p I 1) (voltAt ca p I 2)
  have hsel : ∀ k, sel3 (voltAt ca p I 0) (voltAt ca p I 1) (voltAt ca p I 2) k
      = voltAt ca p I k := by
    intro k
    fin_cases k <;> rfl
  simp only [hsel] at hmaxAll hmaxFirst hminAll hminFirst
  constructor
  · intro hmax
    have hEq : voltAt ca p I
        (scanMaxMin (voltAt ca p I 0) (voltAt ca p I 1) (voltAt ca p I 2)).maxIndex
        = voltAt ca p I i :=
      le_antisymm (hmax _) (hmaxAll i)
    refine ⟨?_, hEq, fun k hk => hEq ▸ hmaxFirst k hk⟩
    by_contra hlt
    exact absurd (hEq ▸ hmaxFirst i (lt_of_not_le hlt)) (lt_irrefl _)
  · intro hmin
    have hEq : voltAt ca p I
        (scanMaxMin (voltAt ca p I 0) (voltAt ca p I 1) (voltAt ca p I 2)).minIndex
        = voltAt ca p I i :=
      le_antisymm (hminAll i) (hmin _)
    refine ⟨?_, hEq, fun k hk => hEq ▸ hminFirst k hk⟩
    by_contra hlt
    exact absurd (hEq ▸ hminFirst i (lt_of_not_le hlt)) (lt_irrefl _)

/-- The effective charging current is positive in every case. -/
theorem effectiveCurrent_pos (s : SimState) : 0 < effectiveCurrent s := by
  unfold effectiveCurrent getChargingCurrentCase4
  dsimp only
  split_ifs <;> norm_num [I_BASE]

/-- Charging one cell preserves the per-cell invariant. -/
theorem chargeCell_inv {Ieff : ℚ} {cell : Cell} (h : CellInv cell) (hI : 0 ≤ Ieff) :
    CellInv (chargeCell Ieff cell) := by
  obtain ⟨hcap, hlo, hhi⟩ := h
  unfold chargeCell CellInv
  dsimp only
  split_ifs with hgt
  · exact ⟨hcap, by norm_num, le_refl 1⟩
  · refine ⟨hcap, ?_, not_lt.mp hgt⟩
    have : 0 ≤ Ieff / cell.capacity := div_nonneg hI hcap.le
    linarith

/-- Charging never decreases a cell's SOC (within the invariant). -/
theorem chargeCell_mono {Ieff : ℚ} {cell : Cell} (hcap : 0 < cell.capacity)
    (hhi : cell.SOC ≤ 1) (hI : 0 ≤ Ieff) :
    cell.SOC ≤ (chargeCell Ieff cell).SOC := by
  unfold chargeCell
  dsimp only
  split_ifs with hgt
  · exact hhi
  · have : 0 ≤ Ieff / cell.capacity := div_nonneg hI hcap.le
    linarith

/-- The passive-balancing bleed preserves the per-cell invariant. -/
theorem passiveBleedCell_inv {ca : Bool} {minV : ℚ} {cell : Cell} (h : CellInv cell) :
    CellInv (passiveBleedCell ca minV cell) := by
  obtain ⟨hcap, hlo, hhi⟩ := h
  have hd : (0:ℚ) < dPassive := by norm_num [dPassive]
  unfold passiveBleedCell CellInv
  dsimp only
  split_ifs with h1 h2
  · exact ⟨hcap, le_refl 0, by norm_num⟩
  · exact ⟨hcap, not_lt.mp h2, by dsimp only; linarith⟩
  · exact ⟨hcap, hlo, hhi⟩

set_option maxHeartbeats 1600000 in
/-- The asymmetrically clamped active transfer preserves the pack
invariant, for any donor and receiver indices (equal or distinct). -/
theorem activeTransfer_inv {p : Pack} {r : ScanAcc} (h : PackInv p) :
    PackInv (activeTransfer p r) := by
  obtain ⟨⟨hc0, hl0, hh0⟩, ⟨hc1, hl1, hh1⟩, ⟨hc2, hl2, hh2⟩⟩ := h
  obtain ⟨mi, ni, mv, nv⟩ := r
  have hd : (0:ℚ) < dActive := by norm_num [dActive]
  unfold activeTransfer PackInv CellInv
  fin_cases mi <;> fin_cases ni <;>
    dsimp only [Pack.setSOC, Pack.getSOC, Pack.cell] <;>
    split_ifs <;>
    refine ⟨⟨?_, ?_, ?_⟩, ⟨?_, ?_, ?_⟩, ⟨?_, ?_, ?_⟩⟩ <;>
    (try dsimp only at *) <;>
    first
      | assumption
      | linarith

/-- C7 witness: on a concrete pack whose cells 0 and 1 tie for the
maximal measured voltage, the scan selects index 0, the first occurrence. -/
theorem tie_break_first_index_witness :
    ((0 : Fin 3) < (1 : Fin 3) ∧ voltAt false tiePack I_BASE 0 = voltAt false tiePack I_BASE 1) ∧
    ((scanMaxMin (voltAt false tiePack I_BASE 0) (voltAt false tiePack I_BASE 1)
        (voltAt false tiePack I_BASE 2)).maxIndex ≤ (0 : Fin 3) ∧
      voltAt false tiePack I_BASE (scanMaxMin (voltAt false tiePack I_BASE 0)
        (voltAt false tiePack I_BASE 1) (voltAt false tiePack I_BASE 2)).maxIndex
        = voltAt false tiePack I_BASE 0 ∧
      (∀ k, k < (scanMaxMin (voltAt false tiePack I_BASE 0) (voltAt false tiePack I_BASE 1)
          (voltAt false tiePack I_BASE 2)).maxIndex →
        voltAt false tiePack I_BASE k < voltAt false tiePack I_BASE 0)) :=
  ⟨⟨by decide, by norm_num [voltAt, tiePack, Pack.cell, getMeasuredVoltage, getOCV, V_MIN, V_MAX]⟩,
    (tie_break_first_index false tiePack I_BASE 0 1 (by decide)
      (by norm_num [voltAt, tiePack, Pack.cell, getMeasuredVoltage, getOCV, V_MIN, V_MAX])).1
      (by intro k; fin_cases k <;>
        norm_num [voltAt, tiePack, Pack.cell, getMeasuredVoltage, getOCV, V_MIN, V_MAX])⟩

/-- A step from a done state is the identity (shared helper). -/
theorem updateSimulation_done_eq {s : SimState} (h : s.phase = Phase.done) :
    updateSimulation s = s := by
  simp [updateSimulation, endCheck, h]

/-- A step from a charging state is the charging block followed by the
end-condition block. -/
theorem update_eq_charging {s : SimState} (h : s.phase = Phase.charging) :
    updateSimulation s = endCheck (chargingStep s) := by
  simp [updateSimulation, h]

/-- A step from a balancing state is the balancing block followed by the
end-condition block. -/
theorem update_eq_balancing {s : SimState} (h : s.phase = Phase.balancing) :
    updateSimulation s = endCheck (balancingStep s) := by
  simp [updateSimulation, h]

/-- The charging block never changes the selected case. -/
theorem chargingStep_simCase (s : SimState) :
    (chargingStep s).simulationCase = s.simulationCase := by
  unfold chargingStep
  dsimp only
  split_ifs <;> rfl

/-- The balancing block never changes the selected case. -/
theorem balancingStep_simCase (s : SimState) :
    (balancingStep s).simulationCase = s.simulationCase := by
  unfold balancingStep
  dsimp only
  split_ifs <;> rfl

/-- The balancing block never changes the charging flag. -/
theorem balancingStep_active (s : SimState) :
    (balancingStep s).chargingActive = s.chargingActive := by
  unfold balancingStep
  dsimp only
  split_ifs <;> rfl

/-- The end-condition block never changes the selected case. -/
theorem endCheck_simCase (s : SimState) :
    (endCheck s).simulationCase = s.simulationCase := by
  unfold endCheck
  dsimp only
  split_ifs <;> rfl

/-- The end-condition block never changes the cells. -/
theorem endCheck_cells (s : SimState) :
    (endCheck s).cells = s.cells := by
  unfold endCheck
  dsimp only
  split_ifs <;> rfl

/-- The end-condition block never changes the charging flag. -/
theorem endCheck_active (s : SimState) :
    (endCheck s).chargingActive = s.chargingActive := by
  unfold endCheck
  dsimp only
  split_ifs <;> rfl

/-- The end-condition block either keeps the phase or finishes a
charging-phase state of case 3 or 4. -/
theorem endCheck_phase (s : SimState) :
    (endCheck s).phase = s.phase ∨
    ((endCheck s).phase = Phase.done ∧ s.phase = Phase.charging ∧
      (s.simulationCase = 3 ∨ s.simulationCase = 4)) := by
  by_cases h : (s.simulationCase = 3 ∨ s.simulationCase = 4) ∧ s.phase = Phase.charging
  · unfold endCheck
    rw [if_pos h]
    dsimp only
    split_ifs
    · exact Or.inr ⟨rfl, h.2, h.1⟩
    · exact Or.inl rfl
    · exact Or.inr ⟨rfl, h.2, h.1⟩
    · exact Or.inl rfl
  · unfold endCheck
    rw [if_neg h]
    exact Or.inl rfl

/-- The charging block either keeps phase and flag, or trips to the
balancing phase with the flag cleared — and the trip needs case 1 or 2. -/
theorem chargingStep_phase_cases (s : SimState) :
    ((chargingStep s).phase = s.phase ∧ (chargingStep s).chargingActive = s.chargingActive) ∨
    ((chargingStep s).phase = Phase.balancing ∧ (chargingStep s).chargingActive = false ∧
      (s.simulationCase = 1 ∨ s.simulationCase = 2)) := by
  unfold chargingStep
  dsimp only
  split_ifs <;> simp_all

/-- The balancing block either keeps the phase or finishes. -/
theorem balancingStep_phase_cases (s : SimState) :
    (balancingStep s).phase = s.phase ∨ (balancingStep s).phase = Phase.done := by
  unfold balancingStep
  dsimp only
  split_ifs <;> simp_all

/-- The charging block preserves the pack invariant. -/
theorem chargingStep_packInv {s : SimState} (h : PackInv s.cells) :
    PackInv (chargingStep s).cells := by
  have hI := (effectiveCurrent_pos s).le
  have hch : PackInv (chargePack (effectiveCurrent s) s.cells) :=
    ⟨chargeCell_inv h.1 hI, chargeCell_inv h.2.1 hI, chargeCell_inv h.2.2 hI⟩
  unfold chargingStep
  dsimp only
  split_ifs <;>
    (try dsimp only) <;>
    first
      | exact h
      | exact hch
      | exact activeTransfer_inv h
      | exact activeTransfer_inv hch

/-- The balancing block preserves the pack invariant. -/
theorem balancingStep_packInv {s : SimState} (h : PackInv s.cells) :
    PackInv (balancingStep s).cells := by
  have hbl : PackInv
      { cell0 := passiveBleedCell s.chargingActive
          (min3 (getMeasuredVoltage s.chargingActive s.cells.cell0 0)
            (getMeasuredVoltage s.chargingActive s.cells.cell1 0)
            (getMeasuredVoltage s.chargingActive s.cells.cell2 0)) s.cells.cell0
      , cell1 := passiveBleedCell s.chargingActive
          (min3 (getMeasuredVoltage s.chargingActive s.cells.cell0 0)
            (getMeasuredVoltage s.chargingActive s.cells.cell1 0)
            (getMeasuredVoltage s.chargingActive s.cells.cell2 0)) s.cells.cell1
      , cell2 := passiveBleedCell s.chargingActive
          (min3 (getMeasuredVoltage s.chargingActive s.cells.cell0 0)
            (getMeasuredVoltage s.chargingActive s.cells.cell1 0)
            (getMeasuredVoltage s.chargingActive s.cells.cell2 0)) s.cells.cell2 } :=
    ⟨passiveBleedCell_inv h.1, passiveBleedCell_inv h.2.1, passiveBleedCell_inv h.2.2⟩
  unfold balancingStep
  dsimp only
  split_ifs <;>
    (try dsimp only) <;>
    first
      | exact h
      | exact hbl
      | exact activeTransfer_inv h

/-- One step preserves the inductive invariant. -/
theorem updateSimulation_inv {s : SimState} (h : Inv s) : Inv (updateSimulation s) := by
  obtain ⟨hp, hca, hc34⟩ := h
  cases hph : s.phase with
  | charging =>
      rw [update_eq_charging hph]
      refine ⟨?_, ?_, ?_⟩
      · rw [endCheck_cells]
        exact chargingStep_packInv hp
      · intro hch
        rw [endCheck_active]
        rcases endCheck_phase (chargingStep s) with he | ⟨hd, -, -⟩
        · rw [he] at hch
          rcases chargingStep_phase_cases s with ⟨-, hact⟩ | ⟨hb, -, -⟩
          · rw [hact]
            exact hca hph
          · rw [hch] at hb
            exact absurd hb (by decide)
        · rw [hd] at hch
          exact absurd hch (by decide)
      · intro h34
        rw [endCheck_simCase, chargingStep_simCase] at h34
        rcases endCheck_phase (chargingStep s) with he | ⟨hd, -, -⟩
        · rw [he]
          rcases chargingStep_phase_cases s with ⟨hph2, -⟩ | ⟨-, -, h12⟩
          · rw [hph2, hph]
            decide
          · rcases h34 with h3 | h3 <;> rcases h12 with h4 | h4 <;> omega
        · rw [hd]
          decide
  | balancing =>
      rw [update_eq_balancing hph]
      refine ⟨?_, ?_, ?_⟩
      · rw [endCheck_cells]
        exact balancingStep_packInv hp
      · intro hch
        rcases endCheck_phase (balancingStep s) with he | ⟨hd, -, -⟩
        · rw [he] at hch
          rcases balancingStep_phase_cases s with hb | hb
          · rw [hb, hph] at hch
            exact absurd hch (by decide)
          · rw [hb] at hch
            exact absurd hch (by decide)
        · rw [hd] at hch
          exact absurd hch (by decide)
      · intro h34
        rw [endCheck_simCase, balancingStep_simCase] at h34
        exact absurd hph (hc34 h34)
  | done =>
      rw [updateSimulation_done_eq hph]
      exact ⟨hp, hca, hc34⟩

/-- Every reset state satisfies the inductive invariant. -/
theorem reset_inv (c : ℤ) : Inv (resetSimulation c) := by
  refine ⟨?_, fun _ => rfl, fun _ => by simp [resetSimulation]⟩
  norm_num [PackInv, CellInv, resetSimulation, initCells]

/-- Every reachable state satisfies the inductive invariant. -/
theorem reachable_inv {s : SimState} (h : Reachable s) : Inv s := by
  obtain ⟨c, n, -, rfl⟩ := h
  induction n with
  | zero => exact reset_inv c
  | succ n ih =>
      rw [Function.iterate_succ_apply']
      exact updateSimulation_inv ih

/-- C2: in every state reachable from a valid reset by any number of
steps, every cell’s SOC lies between 0 and 1. -/
theorem soc_in_bounds (s : SimState) (h : Reachable s) :
    ∀ i : Fin 3, 0 ≤ (s.cells.cell i).SOC ∧ (s.cells.cell i).SOC ≤ 1 := by
  obtain ⟨⟨h0, h1, h2⟩, -, -⟩ := reachable_inv h
  intro i
  fin_cases i
  · exact ⟨h0.2.1, h0.2.2⟩
  · exact ⟨h1.2.1, h1.2.2⟩
  · exact ⟨h2.2.1, h2.2.2⟩

/-- C2 witness: the SOC bounds at the reachable state `reset(1)`. -/
theorem soc_in_bounds_witness :
    (0 ≤ ((resetSimulation 1).cells.cell 0).SOC ∧ ((resetSimulation 1).cells.cell 0).SOC ≤ 1) ∧
    (0 ≤ ((resetSimulation 1).cells.cell 1).SOC ∧ ((resetSimulation 1).cells.cell 1).SOC ≤ 1) ∧
    (0 ≤ ((resetSimulation 1).cells.cell 2).SOC ∧ ((resetSimulation 1).cells.cell 2).SOC ≤ 1) :=
  ⟨soc_in_bounds (resetSimulation 1) ⟨1, 0, Or.inl rfl, rfl⟩ 0,
    soc_in_bounds (resetSimulation 1) ⟨1, 0, Or.inl rfl, rfl⟩ 1,
    soc_in_bounds (resetSimulation 1) ⟨1, 0, Or.inl rfl, rfl⟩ 2⟩

/-- C9: in every reachable state, phase = charging implies
chargingActive = true, so the charging-branch SOC-increment guard is
never false in a reachable charging state; the flag only turns false in
the very step in which the phase leaves charging. -/
theorem charging_implies_active (s : SimState) (h : Reachable s)
    (hph : s.phase = Phase.charging) : s.chargingActive = true :=
  (reachable_inv h).2.1 hph

/-- C9 witness: the implication at the reachable state `reset(2)`. -/
theorem charging_implies_active_witness :
    (resetSimulation 2).phase = Phase.charging ∧ (resetSimulation 2).chargingActive = true :=
  ⟨rfl, charging_implies_active (resetSimulation 2) ⟨2, 0, Or.inr (Or.inl rfl), rfl⟩ rfl⟩

/-- C3: on every reachable state, a step never returns the phase to
charging from balancing or done, cases 3 and 4 never reach the
balancing phase (before or after the step), and cases 1 and 2 never go
directly from charging to done. -/
theorem phase_transitions (s : SimState) (h : Reachable s) :
    ((updateSimulation s).phase = Phase.charging → s.phase = Phase.charging) ∧
    ((s.simulationCase = 3 ∨ s.simulationCase = 4) →
      s.phase ≠ Phase.balancing ∧ (updateSimulation s).phase ≠ Phase.balancing) ∧
    ((s.simulationCase = 1 ∨ s.simulationCase = 2) → s.phase = Phase.charging →
      (updateSimulation s).phase ≠ Phase.done) := by
  obtain ⟨-, -, hc34⟩ := reachable_inv h
  refine ⟨?_, ?_, ?_⟩
  · intro hch
    cases hph : s.phase with
    | charging => rfl
    | balancing =>
        rw [update_eq_balancing hph] at hch
        rcases endCheck_phase (balancingStep s) with he | ⟨hd, -, -⟩
        · rw [he] at hch
          rcases balancingStep_phase_cases s with hb | hb
          · rw [hb, hph] at hch
            exact absurd hch (by decide)
          · rw [hb] at hch
            exact absurd hch (by decide)
        · rw [hd] at hch
          exact absurd hch (by decide)
    | done =>
        rw [updateSimulation_done_eq hph, hph] at hch
        exact absurd hch (by decide)
  · intro h34
    have hnb := hc34 h34
    refine ⟨hnb, ?_⟩
    cases hph : s.phase with
    | charging =>
        rw [update_eq_charging hph]
        rcases endCheck_phase (chargingStep s) with he | ⟨hd, -, -⟩
        · rw [he]
          rcases chargingStep_phase_cases s with ⟨hph2, -⟩ | ⟨-, -, h12⟩
          · rw [hph2, hph]
            decide
          · rcases h34 with h3 | h3 <;> rcases h12 with h4 | h4 <;> omega
        · rw [hd]
          decide
    | balancing => exact absurd hph hnb
    | done =>
        rw [updateSimulation_done_eq hph, hph]
        decide
  · intro h12 hph
    rw [update_eq_charging hph]
    rcases endCheck_phase (chargingStep s) with he | ⟨-, -, h34⟩
    · rw [he]
      rcases chargingStep_phase_cases s with ⟨hph2, -⟩ | ⟨hb, -, -⟩
      · rw [hph2, hph]
        decide
      · rw [hb]
        decide
    · rw [chargingStep_simCase] at h34
      rcases h34 with h3 | h3 <;> rcases h12 with h4 | h4 <;> omega

/-- C3 witness: the transition restrictions at the reachable state `reset(3)`. -/
theorem phase_transitions_witness :
    ((updateSimulation (resetSimulation 3)).phase = Phase.charging →
      (resetSimulation 3).phase = Phase.charging) ∧
    (((resetSimulation 3).simulationCase = 3 ∨ (resetSimulation 3).simulationCase = 4) →
      (resetSimulation 3).phase ≠ Phase.balancing ∧
      (updateSimulation (resetSimulation 3)).phase ≠ Phase.balancing) ∧
    (((resetSimulation 3).simulationCase = 1 ∨ (resetSimulation 3).simulationCase = 2) →
      (resetSimulation 3).phase = Phase.charging →
      (updateSimulation (resetSimulation 3)).phase ≠ Phase.done) :=
  phase_transitions (resetSimulation 3) ⟨3, 0, Or.inr (Or.inr (Or.inl rfl)), rfl⟩

/-- When the spread guard fails, the active transfer leaves the pack unchanged. -/
theorem activeTransfer_of_not_guard {p : Pack} {r : ScanAcc}
    (h : ¬ (r.maxVoltage - r.minVoltage > tolVoltage)) : activeTransfer p r = p := by
  unfold activeTransfer
  rw [if_neg h]

/-- C8: a step taken while charging with the flag set, in which no
balancing transfer occurs (cases 1, 2 and 4 always; case 3 when the
spread guard fails) and no overvoltage trip fires, never decreases any
cell's SOC. -/
theorem charging_soc_monotone (s : SimState)
    (hph : s.phase = Phase.charging) (hca : s.chargingActive = true)
    (hc0 : 0 < s.cells.cell0.capacity) (hc1 : 0 < s.cells.cell1.capacity)
    (hc2 : 0 < s.cells.cell2.capacity)
    (hs0 : s.cells.cell0.SOC ≤ 1) (hs1 : s.cells.cell1.SOC ≤ 1) (hs2 : s.cells.cell2.SOC ≤ 1)
    (hcase : s.simulationCase = 1 ∨ s.simulationCase = 2 ∨ s.simulationCase = 4 ∨
      (s.simulationCase = 3 ∧ ¬ case3TransferFires s))
    (htrip : ¬ overvoltageTripFires s) :
    s.cells.cell0.SOC ≤ (updateSimulation s).cells.cell0.SOC ∧
    s.cells.cell1.SOC ≤ (updateSimulation s).cells.cell1.SOC ∧
    s.cells.cell2.SOC ≤ (updateSimulation s).cells.cell2.SOC := by
  have hI := (effectiveCurrent_pos s).le
  have hcells : (chargingStep s).cells = chargePack (effectiveCurrent s) s.cells := by
    unfold chargingStep
    dsimp only
    rw [if_pos hca]
    unfold overvoltageTripFires at htrip
    dsimp only at htrip
    rw [if_pos hca] at htrip
    rcases hcase with h1 | h2 | h4 | ⟨h3, hnt⟩
    · rw [if_pos (Or.inl h1 : s.simulationCase = 1 ∨ s.simulationCase = 2)]
      rw [if_neg (fun hov => htrip ⟨Or.inl h1, hov⟩)]
      dsimp only
      rw [if_neg (by omega : ¬ s.simulationCase = 3)]
    · rw [if_pos (Or.inr h2 : s.simulationCase = 1 ∨ s.simulationCase = 2)]
      rw [if_neg (fun hov => htrip ⟨Or.inr h2, hov⟩)]
      dsimp only
      rw [if_neg (by omega : ¬ s.simulationCase = 3)]
    · rw [if_neg (by omega : ¬ (s.simulationCase = 1 ∨ s.simulationCase = 2))]
      dsimp only
      rw [if_neg (by omega : ¬ s.simulationCase = 3)]
    · unfold case3TransferFires at hnt
      dsimp only at hnt
      rw [if_pos hca] at hnt
      rw [if_neg (by omega : ¬ (s.simulationCase = 1 ∨ s.simulationCase = 2))]
      dsimp only
      rw [if_pos h3]
      dsimp only
      rw [activeTransfer_of_not_guard hnt]
  rw [update_eq_charging hph, endCheck_cells, hcells]
  exact ⟨chargeCell_mono hc0 hs0 hI, chargeCell_mono hc1 hs1 hI, chargeCell_mono hc2 hs2 hI⟩

/-- C8 witness: the monotonicity at the concrete state `reset(1)`. -/
theorem charging_soc_monotone_witness :
    (resetSimulation 1).cells.cell0.SOC ≤ (updateSimulation (resetSimulation 1)).cells.cell0.SOC ∧
    (resetSimulation 1).cells.cell1.SOC ≤ (updateSimulation (resetSimulation 1)).cells.cell1.SOC ∧
    (resetSimulation 1).cells.cell2.SOC ≤ (updateSimulation (resetSimulation 1)).cells.cell2.SOC :=
  charging_soc_monotone (resetSimulation 1) rfl rfl
    (by norm_num [resetSimulation, initCells])
    (by norm_num [resetSimulation, initCells])
    (by norm_num [resetSimulation, initCells])
    (by norm_num [resetSimulation, initCells])
    (by norm_num [resetSimulation, initCells])
    (by norm_num [resetSimulation, initCells])
    (Or.inl rfl)
    (by norm_num [overvoltageTripFires, effectiveCurrent, overvoltageCond, resetSimulation,
      initCells, chargePack, chargeCell, getMeasuredVoltage, getOCV, V_MIN, V_MAX, OVP, I_BASE])

/-- The end-condition block is a no-op outside cases 3 and 4. -/
theorem endCheck_noop_of_case {s : SimState}
    (h : ¬ (s.simulationCase = 3 ∨ s.simulationCase = 4)) : endCheck s = s := by
  unfold endCheck
  rw [if_neg (fun hc => h hc.1)]

/-- The standalone measured-voltage helper agrees with the engine's. -/
theorem pjs_getMeasuredVoltage_eq : PassiveJs.getMeasuredVoltage = getMeasuredVoltage := rfl

/-- C10: the standalone case-1 update of `src/passive.js` and the
identical one of `src/unnamed/part_000` agree with each other on every
state, and with one step of the four-case engine restricted to case 1
on every reachable state (where phase = charging forces
chargingActive = true, so the engine's guarded SOC increment matches
the standalone unconditional one). -/
theorem standalone_case1_equiv (s : SimState) (h : Reachable s) (hc : s.simulationCase = 1) :
    PassiveJs.updateSimulation (projEngine s) = projEngine (updateSimulation s) ∧
    (∀ t : PassiveState, Part000.updateSimulation t = PassiveJs.updateSimulation t) := by
  refine ⟨?_, fun t => rfl⟩
  obtain ⟨-, hca, -⟩ := reachable_inv h
  obtain ⟨c, ph, ca, p⟩ := s
  dsimp only at hc hca
  subst hc
  cases ph with
  | charging =>
      have hcat : ca = true := hca rfl
      subst hcat
      have hE : effectiveCurrent ⟨1, Phase.charging, true, p⟩ = I_BASE := by
        simp [effectiveCurrent]
      rw [update_eq_charging rfl]
      unfold chargingStep
      dsimp only
      rw [hE, if_pos (rfl : true = true), if_pos (Or.inl rfl : (1:ℤ) = 1 ∨ (1:ℤ) = 2)]
      by_cases hov : overvoltageCond ⟨1, Phase.charging, true, chargePack I_BASE p⟩ I_BASE
      · rw [if_pos hov]
        dsimp only
        rw [if_neg (by omega : ¬ (1:ℤ) = 3)]
        rw [endCheck_noop_of_case (by dsimp only; omega)]
        unfold overvoltageCond at hov
        dsimp only at hov
        unfold PassiveJs.updateSimulation projEngine
        dsimp only
        rw [pjs_getMeasuredVoltage_eq, if_pos (rfl : Phase.charging = Phase.charging),
          if_pos hov]
      · rw [if_neg hov]
        dsimp only
        rw [if_neg (by omega : ¬ (1:ℤ) = 3)]
        rw [endCheck_noop_of_case (by dsimp only; omega)]
        unfold overvoltageCond at hov
        dsimp only at hov
        unfold PassiveJs.updateSimulation projEngine
        dsimp only
        rw [pjs_getMeasuredVoltage_eq, if_pos (rfl : Phase.charging = Phase.charging),
          if_neg hov]
  | balancing =>
      rw [update_eq_balancing rfl]
      rw [endCheck_noop_of_case (by rw [balancingStep_simCase]; dsimp only; omega)]
      unfold balancingStep PassiveJs.updateSimulation projEngine passiveBleedCell PassiveJs.bleedCell
      dsimp only
      rw [pjs_getMeasuredVoltage_eq]
      rw [if_pos (rfl : (1:ℤ) = 1)]
      rw [if_neg (by decide : ¬ Phase.balancing = Phase.charging),
        if_pos (rfl : Phase.balancing = Phase.balancing)]
      dsimp only
      split_ifs <;> rfl
  | done =>
      rw [updateSimulation_done_eq rfl]
      rfl

/-- C10 witness: the agreement at the reachable state `reset(1)`. -/
theorem standalone_case1_equiv_witness :
    PassiveJs.updateSimulation (projEngine (resetSimulation 1)) =
      projEngine (updateSimulation (resetSimulation 1)) :=
  (standalone_case1_equiv (resetSimulation 1) ⟨1, 0, Or.inl rfl, rfl⟩ rfl).1

end BatterySim
